import Mathlib

/-!
Verification of the tiny-alignment-studio preference-data pipeline and
telemetry log against its natural-language specification.

The development shallowly embeds the Python sources:
  - Python strings are embedded as `List Char` (`Str`), and the string
    operations the code uses (`str.split`, `str.strip`, `str.find`,
    slicing) are defined with Python semantics.
  - `src/core/data/formatters.py` and `src/core/data/pipeline.py`:
    transcript extraction, the two formatters, `DataPipeline.validate`
    and `DataPipeline.create_manifest` (including the exact
    `json.dumps(..., sort_keys=True)` serialization and SHA-256).
  - `src/telemetry/events.py` and `src/contracts/events.py`: the JSONL
    event log.  The log file is modelled at line granularity: a state is
    `Option (List Json)` (`none` = the file does not exist, each list
    element is the JSON document on one line).  The textual rendering
    and reparsing of a single line (`model_dump_json` / `json.loads`)
    is modelled at the JSON-value level; Python floats are modelled as
    rationals, and the `datetime` timestamp as its serialized string.
  - `src/utils/config.py` and `src/contracts/training.py`: config
    flattening and pydantic validation bounds.
Pydantic model construction is modelled by smart constructors returning
`Option`, `none` standing for a raised `ValidationError`.
-/

/-- Python strings are embedded as lists of characters. -/
abbrev Str := List Char

/-- Membership of the default whitespace set of Python `str.strip()`
(restricted to the ASCII whitespace characters, the only ones the
repository's data paths produce). -/
def pyIsSpace (c : Char) : Bool :=
  c == ' ' || c == '\t' || c == '\n' || c == '\x0b' || c == '\x0c' || c == '\r'

/-- Python `s.strip()`: remove leading and trailing whitespace. -/
def pyStrip (s : Str) : Str :=
  (s.dropWhile pyIsSpace).rdropWhile pyIsSpace

/-- Locate the first occurrence of `sep` in a string, returning the part
before it and the part after it.  This is the search primitive behind
Python `str.split` and `str.find`. -/
def splitFirst (sep : Str) : Str → Option (Str × Str)
  | [] => none
  | c :: cs =>
    if sep.isPrefixOf (c :: cs) then some ([], (c :: cs).drop sep.length)
    else
      match splitFirst sep cs with
      | none => none
      | some (p, r) => some (c :: p, r)

/-- Fueled worker for Python `str.split` (the fuel only serves
termination; `pySplit` supplies enough of it). -/
def pySplitGo (sep : Str) : Nat → Str → List Str
  | 0, s => [s]
  | n + 1, s =>
    match splitFirst sep s with
    | none => [s]
    | some (p, r) => p :: pySplitGo sep n r

/-- Python `s.split(sep)` for a non-empty separator: the maximal
left-to-right decomposition at non-overlapping occurrences of `sep`. -/
def pySplit (sep s : Str) : List Str := pySplitGo sep (s.length + 1) s

/-- Python `s.find(sub)`: index of the first occurrence, `-1` if absent. -/
def pyFind (s sub : Str) : Int :=
  match splitFirst sub s with
  | none => -1
  | some (p, _) => p.length

/-- Python `xs[i:]` slicing with an integer start index. -/
def pySliceFrom (i : Int) {α : Type} (xs : List α) : List α :=
  if i < 0 then xs.drop ((xs.length : Int) + i).toNat
  else xs.drop i.toNat

/-- Python `parts[-1]` on the (always non-empty) result of `str.split`. -/
def pyLast (xs : List Str) : Str := xs.getLastD []

/-- The turn delimiter `"\n\nAssistant: "` of Anthropic HH transcripts. -/
def assistantDelim : Str := ("\n\nAssistant: ").toList

/-- The turn delimiter `"\n\nHuman: "` of Anthropic HH transcripts. -/
def humanDelim : Str := ("\n\nHuman: ").toList

/-- Embedding of `formatters._extract_last_assistant`: split the
conversation on the assistant delimiter and return the stripped last
part (the whole stripped string when the delimiter is absent). -/
def extractLastAssistant (conversation : Str) : Str :=
  let parts := pySplit assistantDelim conversation
  if parts.length < 2 then pyStrip conversation
  else pyStrip (pyLast parts)

/-- Embedding of `pipeline._extract_response` (same algorithm as
`_extract_last_assistant`, duplicated in the source). -/
def extractResponse (text : Str) : Str :=
  let parts := pySplit assistantDelim text
  if parts.length < 2 then pyStrip text
  else pyStrip (pyLast parts)

/-- Embedding of `formatters._extract_shared_prompt`.  The Python body
also computes `rejected_parts = rejected.split("\n\nHuman: ")` but never
uses it; the unused binding is kept. -/
def extractSharedPrompt (chosen rejected : Str) : Str :=
  let chosen_parts := pySplit humanDelim chosen
  let rejected_parts := pySplit humanDelim rejected
  if chosen_parts.length < 2 then pyStrip chosen
  else
    let last_human := pyLast chosen_parts
    let assistant_idx := pyFind last_human assistantDelim
    let last_human2 :=
      if assistant_idx != -1 then last_human.take assistant_idx.toNat
      else last_human
    pyStrip last_human2

/-- Embedding of `pipeline._get_last_human_turn` (same algorithm as the
tail of `_extract_shared_prompt`). -/
def getLastHumanTurn (conversation : Str) : Str :=
  let parts := pySplit humanDelim conversation
  if parts.length < 2 then pyStrip conversation
  else
    let last_human := pyLast parts
    let assistant_idx := pyFind last_human assistantDelim
    let last_human2 :=
      if assistant_idx != -1 then last_human.take assistant_idx.toNat
      else last_human
    pyStrip last_human2

example : extractLastAssistant ("\n\nHuman: hi\n\nAssistant: hello there ").toList
    = ("hello there").toList := by decide

example : extractLastAssistant ("no delimiter here ").toList
    = ("no delimiter here").toList := by decide

example : extractSharedPrompt ("\n\nHuman: q?\n\nAssistant: a").toList ("ignored").toList
    = ("q?").toList := by decide

/-- Embedding of `contracts.data.PreferenceRecord` (a pydantic model
whose fields are all plain strings; `metadata: dict[str, Any]` is
modelled as an association list of string keys and string values, the
only shape the repository produces). -/
structure PreferenceRecord where
  id : Str
  prompt : Str
  chosen : Str
  rejected : Str
  source : Str
  metadata : List (Str × Str)
deriving DecidableEq, Repr

/-- Raw input record of `AnthropicHHFormatter.format`: a dict read with
`raw_record.get("chosen", "")` / `raw_record.get("rejected", "")`, so
each key may be absent. -/
structure RawHH where
  chosen : Option Str
  rejected : Option Str

/-- Embedding of `AnthropicHHFormatter.format`.  `Except.error`
models the raised `ValueError` (carrying the formatted message). -/
def anthropicFormat (raw_record : RawHH) (record_id : Str) :
    Except Str PreferenceRecord :=
  let chosen_text := raw_record.chosen.getD []
  let rejected_text := raw_record.rejected.getD []
  let prompt := extractSharedPrompt chosen_text rejected_text
  let chosen_response := extractLastAssistant chosen_text
  let rejected_response := extractLastAssistant rejected_text
  if chosen_response = [] ∨ rejected_response = [] then
    Except.error (("Record ").toList ++ record_id ++
      (": could not extract responses").toList)
  else
    Except.ok
      { id := record_id
        prompt := prompt
        chosen := chosen_response
        rejected := rejected_response
        source := ("anthropic_hh").toList
        metadata := [] }

/-- Raw input record of `StandardFormatter.format`: `prompt`, `chosen`
and `rejected` are accessed with `raw_record[...]` (a `KeyError` on an
absent key is outside the formatter), `source` with
`raw_record.get("source", "standard")`. -/
structure RawStd where
  prompt : Str
  chosen : Str
  rejected : Str
  source : Option Str

/-- Embedding of `StandardFormatter.format`: field pass-through. -/
def standardFormat (raw_record : RawStd) (record_id : Str) :
    PreferenceRecord :=
  { id := record_id
    prompt := raw_record.prompt
    chosen := raw_record.chosen
    rejected := raw_record.rejected
    source := raw_record.source.getD (("standard").toList)
    metadata := [] }

/-- One row of a raw dataset as consumed by `DataPipeline.validate`:
the `prompt`, `chosen` and `rejected` columns may each be absent. -/
structure Row where
  prompt : Option Str
  chosen : Option Str
  rejected : Option Str

/-- Embedding of `pipeline._extract_prompt`: use a present and
non-empty (truthy) `prompt` field, otherwise fall back to the last
human turn of the `chosen` conversation. -/
def rowExtractPrompt (row : Row) : Str :=
  match row.prompt with
  | some p => if p ≠ [] then p else getLastHumanTurn (row.chosen.getD [])
  | none => getLastHumanTurn (row.chosen.getD [])

/-- One iteration of the loop in `DataPipeline.validate`: extract the
three fields and build the record, `none` modelling a skipped row
(the `raise ValueError` caught by the surrounding `try`). -/
def validateRow (idx : Nat) (row : Row) : Option PreferenceRecord :=
  let prompt := rowExtractPrompt row
  let chosen := extractResponse (row.chosen.getD [])
  let rejected := extractResponse (row.rejected.getD [])
  if prompt = [] ∨ chosen = [] ∨ rejected = [] then none
  else
    some
      { id := Nat.toDigits 10 idx
        prompt := prompt
        chosen := chosen
        rejected := rejected
        source := ("pipeline").toList
        metadata := [] }

/-- Embedding of `DataPipeline.validate`: keep the rows that validate,
and raise (`Except.error`) when none do. -/
def validate (dataset : List Row) : Except Str (List PreferenceRecord) :=
  let valid_records :=
    (dataset.enum).filterMap (fun ir => validateRow ir.1 ir.2)
  if valid_records = [] then
    Except.error (("No valid records found.").toList)
  else Except.ok valid_records

/-- Hexadecimal digit characters (lowercase, as Python produces). -/
def hexDigit (n : Nat) : Char :=
  (("0123456789abcdef").toList).getD n '0'

/-- Render `n` as exactly four hexadecimal digits (for `\uXXXX`). -/
def hex4 (n : Nat) : Str :=
  [hexDigit (n / 4096 % 16), hexDigit (n / 256 % 16),
   hexDigit (n / 16 % 16), hexDigit (n % 16)]

/-- Escaping of one character inside a JSON string as done by Python
`json.dumps` with its default `ensure_ascii=True`: the two-character
escapes for the common control characters, `\uXXXX` for the remaining
control characters and for every non-ASCII character (surrogate pairs
above U+FFFF). -/
def jsonEscapeChar (c : Char) : Str :=
  if c = '"' then ['\\', '"']
  else if c = '\\' then ['\\', '\\']
  else if c = '\n' then ['\\', 'n']
  else if c = '\r' then ['\\', 'r']
  else if c = '\t' then ['\\', 't']
  else if c = '\x08' then ['\\', 'b']
  else if c = '\x0c' then ['\\', 'f']
  else if c.toNat < 0x20 then '\\' :: 'u' :: hex4 c.toNat
  else if c.toNat < 0x7f then [c]
  else if c.toNat < 0x10000 then '\\' :: 'u' :: hex4 c.toNat
  else
    ('\\' :: 'u' :: hex4 (0xd800 + (c.toNat - 0x10000) / 1024)) ++
    ('\\' :: 'u' :: hex4 (0xdc00 + (c.toNat - 0x10000) % 1024))

/-- Python `json.dumps` rendering of a string value. -/
def jsonStr (s : Str) : Str :=
  '"' :: (s.flatMap jsonEscapeChar) ++ ['"']

/-- Lexicographic code-point comparison of strings, Python `<`. -/
def strLt : Str → Str → Bool
  | [], [] => false
  | [], _ :: _ => true
  | _ :: _, [] => false
  | a :: as, b :: bs =>
    if a.toNat < b.toNat then true
    else if b.toNat < a.toNat then false
    else strLt as bs

/-- Insertion step of a stable insertion sort by key. -/
def insertByKey (p : Str × Str) : List (Str × Str) → List (Str × Str)
  | [] => [p]
  | q :: qs => if strLt q.1 p.1 then q :: insertByKey p qs else p :: q :: qs

/-- Stable sort of key-value pairs by key (Python `sort_keys=True`). -/
def sortByKey (ps : List (Str × Str)) : List (Str × Str) :=
  ps.foldr insertByKey []

/-- Render an association list as a JSON object with sorted keys, with
the default `json.dumps` separators. -/
def jsonObjSorted (ps : List (Str × Str)) : Str :=
  match sortByKey ps with
  | [] => ("\x7b\x7d").toList
  | qs =>
    ('\x7b' :: (List.intercalate ((", ").toList)
      (qs.map (fun q => jsonStr q.1 ++ ((": ").toList) ++ jsonStr q.2)))) ++
    ['\x7d']

/-- Serialization of one `PreferenceRecord.model_dump()` dict by
`json.dumps(..., sort_keys=True)`: the six keys in sorted order
(`chosen`, `id`, `metadata`, `prompt`, `rejected`, `source`). -/
def serializeRecord (r : PreferenceRecord) : Str :=
  ('\x7b' :: (("\"chosen\": ").toList) ++ jsonStr r.chosen ++
   ((", \"id\": ").toList) ++ jsonStr r.id ++
   ((", \"metadata\": ").toList) ++ jsonObjSorted r.metadata ++
   ((", \"prompt\": ").toList) ++ jsonStr r.prompt ++
   ((", \"rejected\": ").toList) ++ jsonStr r.rejected ++
   ((", \"source\": ").toList) ++ jsonStr r.source) ++ ['\x7d']

/-- Serialization of the record list, as in `DataPipeline.create_manifest`:
`json.dumps([r.model_dump() for r in records], sort_keys=True, default=str)`. -/
def serializeRecords (records : List PreferenceRecord) : Str :=
  match records with
  | [] => ("[]").toList
  | rs =>
    ('[' :: List.intercalate ((", ").toList) (rs.map serializeRecord)) ++ [']']

/-- UTF-8 encoding of one character (Python `str.encode()`). -/
def utf8Char (c : Char) : List Nat :=
  let n := c.toNat
  if n < 0x80 then [n]
  else if n < 0x800 then [0xc0 + n / 64, 0x80 + n % 64]
  else if n < 0x10000 then
    [0xe0 + n / 4096, 0x80 + n / 64 % 64, 0x80 + n % 64]
  else
    [0xf0 + n / 262144, 0x80 + n / 4096 % 64, 0x80 + n / 64 % 64,
     0x80 + n % 64]

/-- UTF-8 encoding of a string as a byte list. -/
def utf8Encode (s : Str) : List Nat := s.flatMap utf8Char

/-- Right rotation of a 32-bit word. -/
def rotr32 (n x : Nat) : Nat :=
  ((x >>> n) ||| (x <<< (32 - n))) % 4294967296

/-- The 64 SHA-256 round constants. -/
def sha256K : List Nat :=
  [1116352408, 1899447441, 3049323471, 3921009573,
   961987163, 1508970993, 2453635748, 2870763221,
   3624381080, 310598401, 607225278, 1426881987,
   1925078388, 2162078206, 2614888103, 3248222580,
   3835390401, 4022224774, 264347078, 604807628,
   770255983, 1249150122, 1555081692, 1996064986,
   2554220882, 2821834349, 2952996808, 3210313671,
   3336571891, 3584528711, 113926993, 338241895,
   666307205, 773529912, 1294757372, 1396182291,
   1695183700, 1986661051, 2177026350, 2456956037,
   2730485921, 2820302411, 3259730800, 3345764771,
   3516065817, 3600352804, 4094571909, 275423344,
   430227734, 506948616, 659060556, 883997877,
   958139571, 1322822218, 1537002063, 1747873779,
   1955562222, 2024104815, 2227730452, 2361852424,
   2428436474, 2756734187, 3204031479, 3329325298]

/-- The SHA-256 initial hash value. -/
def sha256H0 : List Nat :=
  [1779033703, 3144134277, 1013904242, 2773480762,
   1359893119, 2600822924, 528734635, 1541459225]

/-- SHA-256 message padding: append `0x80`, zeros, and the 64-bit
big-endian bit length, to a multiple of 64 bytes. -/
def sha256Pad (msg : List Nat) : List Nat :=
  let len := msg.length
  let bitLen := len * 8
  let zeros := (55 - len % 64 + 64) % 64
  msg ++ [0x80] ++ List.replicate zeros 0 ++
    [bitLen / 2 ^ 56 % 256, bitLen / 2 ^ 48 % 256, bitLen / 2 ^ 40 % 256,
     bitLen / 2 ^ 32 % 256, bitLen / 2 ^ 24 % 256, bitLen / 2 ^ 16 % 256,
     bitLen / 2 ^ 8 % 256, bitLen % 256]

/-- Split a byte list into 64-byte chunks (fueled; the padded length is
a multiple of 64). -/
def chunks64 : Nat → List Nat → List (List Nat)
  | 0, _ => []
  | _, [] => []
  | fuel + 1, bs => bs.take 64 :: chunks64 fuel (bs.drop 64)

/-- Pack four big-endian bytes into a 32-bit word, for each of the 16
words of a chunk. -/
def bytesToWords : Nat → List Nat → List Nat
  | 0, _ => []
  | fuel + 1, bs =>
    match bs with
    | b0 :: b1 :: b2 :: b3 :: rest =>
      (b0 * 16777216 + b1 * 65536 + b2 * 256 + b3) :: bytesToWords fuel rest
    | _ => []

/-- Extend the 16 schedule words to 64 (the `w` array of SHA-256). -/
def sha256Extend : Nat → List Nat → List Nat
  | 0, w => w
  | fuel + 1, w =>
    let i := w.length
    let w15 := w.getD (i - 15) 0
    let w2 := w.getD (i - 2) 0
    let s0 := (rotr32 7 w15) ^^^ (rotr32 18 w15) ^^^ (w15 >>> 3)
    let s1 := (rotr32 17 w2) ^^^ (rotr32 19 w2) ^^^ (w2 >>> 10)
    sha256Extend fuel
      (w ++ [(w.getD (i - 16) 0 + s0 + w.getD (i - 7) 0 + s1) % 4294967296])

/-- One round of the SHA-256 compression function. -/
def sha256Round (st : List Nat) (kw : Nat × Nat) : List Nat :=
  match st with
  | [a, b, c, d, e, f, g, h] =>
    let s1 := (rotr32 6 e) ^^^ (rotr32 11 e) ^^^ (rotr32 25 e)
    let ch := (e &&& f) ^^^ ((4294967295 - e) &&& g)
    let temp1 := (h + s1 + ch + kw.1 + kw.2) % 4294967296
    let s0 := (rotr32 2 a) ^^^ (rotr32 13 a) ^^^ (rotr32 22 a)
    let maj := (a &&& b) ^^^ (a &&& c) ^^^ (b &&& c)
    let temp2 := (s0 + maj) % 4294967296
    [(temp1 + temp2) % 4294967296, a, b, c,
     (d + temp1) % 4294967296, e, f, g]
  | other => other

/-- Process one 64-byte chunk: schedule, 64 rounds, and the feed-forward
addition into the running hash. -/
def sha256Chunk (h : List Nat) (chunk : List Nat) : List Nat :=
  let w := sha256Extend 48 (bytesToWords 16 chunk)
  let st := (sha256K.zip w).foldl sha256Round h
  (h.zip st).map (fun p => (p.1 + p.2) % 4294967296)

/-- SHA-256 of a byte list, as the list of eight 32-bit hash words. -/
def sha256Words (msg : List Nat) : List Nat :=
  let padded := sha256Pad msg
  (chunks64 (padded.length / 64) padded).foldl sha256Chunk sha256H0

/-- Render one 32-bit word as eight lowercase hex digits. -/
def wordToHex (w : Nat) : Str :=
  [hexDigit (w / 2 ^ 28 % 16), hexDigit (w / 2 ^ 24 % 16),
   hexDigit (w / 2 ^ 20 % 16), hexDigit (w / 2 ^ 16 % 16),
   hexDigit (w / 2 ^ 12 % 16), hexDigit (w / 2 ^ 8 % 16),
   hexDigit (w / 2 ^ 4 % 16), hexDigit (w % 16)]

/-- `hashlib.sha256(bytes).hexdigest()`. -/
def sha256Hex (msg : List Nat) : Str :=
  (sha256Words msg).flatMap wordToHex

example : sha256Hex [] =
    ("e3b0c44298fc1c149afbf4c8996fb92427ae41e4649b934ca495991b7852b855").toList := by
  decide

example : sha256Hex (utf8Encode (("abc").toList)) =
    ("ba7816bf8f01cfea414140de5dae2223b00361a396177a9cb410ff61f20015ad").toList := by
  decide

/-- Embedding of `contracts.data.DatasetManifest` (`num_records` carries
the `ge=0` bound as a `Nat`). -/
structure DatasetManifest where
  name : Str
  version : Str
  num_records : Nat
  schema_version : Str
  checksum : Str
deriving DecidableEq, Repr

/-- Checksum step of `DataPipeline.create_manifest`:
`hashlib.sha256(content.encode()).hexdigest()[:16]` where `content` is
the sorted-keys serialization of the record dumps. -/
def recordsChecksum (records : List PreferenceRecord) : Str :=
  (sha256Hex (utf8Encode (serializeRecords records))).take 16

/-- Embedding of `DataPipeline.create_manifest`. -/
def createManifest (name : Str) (records : List PreferenceRecord)
    (version : Str) : DatasetManifest :=
  { name := name
    version := version
    num_records := records.length
    schema_version := ("1.0").toList
    checksum := recordsChecksum records }

/-- JSON documents, the values stored one-per-line in the JSONL telemetry
log.  Python's distinct `int` and `float` number tokens are kept apart;
floats are modelled as rationals. -/
inductive Json where
  | jnull : Json
  | jbool (b : Bool) : Json
  | jint (n : Int) : Json
  | jnum (q : Rat) : Json
  | jstr (s : Str) : Json
  | jarr (xs : List Json) : Json
  | jobj (fields : List (Str × Json)) : Json
deriving Repr

/-- Embedding of `contracts.events.RunEvent`.  A pydantic model instance
always satisfies its field validators, so the `ge=0` bounds on `step`
and `learning_rate` are carried as proof fields.  The `datetime`
timestamp is modelled by its serialized string, floats by rationals,
and `extras: dict[str, Any]` as an association list. -/
structure RunEvent where
  timestamp : Str
  run_id : Str
  step : Int
  loss : Rat
  reward_margin : Option Rat
  learning_rate : Rat
  gpu_memory_mb : Option Rat
  tokens_per_second : Option Rat
  extras : List (Str × Json)
  step_nonneg : 0 ≤ step
  lr_nonneg : 0 ≤ learning_rate

/-- Embedding of the pydantic constructor
`RunEvent(timestamp=..., run_id=..., step=..., ...)`: `none` models a
raised `ValidationError` (here, a violated `ge=0` bound). -/
def mkRunEvent (timestamp run_id : Str) (step : Int) (loss : Rat)
    (reward_margin : Option Rat) (learning_rate : Rat)
    (gpu_memory_mb tokens_per_second : Option Rat)
    (extras : List (Str × Json)) : Option RunEvent :=
  if h1 : 0 ≤ step then
    if h2 : 0 ≤ learning_rate then
      some
        { timestamp := timestamp, run_id := run_id, step := step
          loss := loss, reward_margin := reward_margin
          learning_rate := learning_rate, gpu_memory_mb := gpu_memory_mb
          tokens_per_second := tokens_per_second, extras := extras
          step_nonneg := h1, lr_nonneg := h2 }
    else none
  else none

/-- Render an optional float field (`None` serializes to `null`). -/
def optToJson (v : Option Rat) : Json :=
  match v with
  | none => Json.jnull
  | some q => Json.jnum q

/-- Embedding of `event.model_dump_json()`: the JSON document written on
one log line, fields in declaration order. -/
def eventToJson (e : RunEvent) : Json :=
  Json.jobj
    [(("timestamp").toList, Json.jstr e.timestamp),
     (("run_id").toList, Json.jstr e.run_id),
     (("step").toList, Json.jint e.step),
     (("loss").toList, Json.jnum e.loss),
     (("reward_margin").toList, optToJson e.reward_margin),
     (("learning_rate").toList, Json.jnum e.learning_rate),
     (("gpu_memory_mb").toList, optToJson e.gpu_memory_mb),
     (("tokens_per_second").toList, optToJson e.tokens_per_second),
     (("extras").toList, Json.jobj e.extras)]

/-- Look up a key in a parsed JSON object.  `json.loads` builds a Python
dict, in which a repeated key keeps its last value. -/
def lookupField (key : Str) (fields : List (Str × Json)) : Option Json :=
  (fields.filter (fun f => f.1 = key)).getLast?.map (fun f => f.2)

/-- Read a required pydantic `str` field. -/
def fieldAsStr (j : Option Json) : Option Str :=
  match j with
  | some (Json.jstr s) => some s
  | _ => none

/-- Read a required pydantic `int` field (a lax-mode float is accepted
when integral; the string-to-number lax coercion, which no log line
produced by the writer exercises, is not modelled). -/
def fieldAsInt (j : Option Json) : Option Int :=
  match j with
  | some (Json.jint n) => some n
  | some (Json.jnum q) => if q.den = 1 then some q.num else none
  | _ => none

/-- Read a required pydantic `float` field (ints coerce to floats). -/
def fieldAsNum (j : Option Json) : Option Rat :=
  match j with
  | some (Json.jnum q) => some q
  | some (Json.jint n) => some (n : Rat)
  | _ => none

/-- Read an `Optional[float]` field with default `None`. -/
def fieldAsOptNum (j : Option Json) : Option (Option Rat) :=
  match j with
  | none => some none
  | some Json.jnull => some none
  | some (Json.jnum q) => some (some q)
  | some (Json.jint n) => some (some (n : Rat))
  | _ => none

/-- Embedding of `RunEvent(**json.loads(line))` for one log line.
`now` is the clock value used by the `default_factory=datetime.now`
of an absent `timestamp`.  `none` models any raised exception
(non-object line, missing or ill-typed required field, violated
bound). -/
def jsonToEvent (now : Str) (j : Json) : Option RunEvent :=
  match j with
  | Json.jobj fields =>
    match fieldAsStr (lookupField (("run_id").toList) fields),
        fieldAsInt (lookupField (("step").toList) fields),
        fieldAsNum (lookupField (("loss").toList) fields),
        fieldAsNum (lookupField (("learning_rate").toList) fields),
        fieldAsOptNum (lookupField (("reward_margin").toList) fields),
        fieldAsOptNum (lookupField (("gpu_memory_mb").toList) fields),
        fieldAsOptNum (lookupField (("tokens_per_second").toList) fields) with
    | some run_id, some step, some loss, some lr, some rm, some gpu,
        some tps =>
      let timestamp :=
        match fieldAsStr (lookupField (("timestamp").toList) fields) with
        | some t => t
        | none => now
      let extras :=
        match lookupField (("extras").toList) fields with
        | none => some []
        | some (Json.jobj ps) => some ps
        | some _ => none
      match extras with
      | some ex => mkRunEvent timestamp run_id step loss rm lr gpu tps ex
      | none => none
    | _, _, _, _, _, _, _ => none
  | _ => none

/-- State of one telemetry log file `log_dir / f"{run_id}.jsonl"`:
`none` when the file does not exist, otherwise the list of JSON
documents on its lines. -/
abbrev LogFile := Option (List Json)

/-- Embedding of `EventWriter.write`: open in append mode (creating the
file if absent) and append one serialized event line. -/
def eventWrite (st : LogFile) (event : RunEvent) : LogFile :=
  some (st.getD [] ++ [eventToJson event])

/-- A sequence of `EventWriter.write` calls, in order. -/
def eventWriteAll (st : LogFile) (events : List RunEvent) : LogFile :=
  events.foldl eventWrite st

/-- Embedding of `EventReader.read_all`: `[]` for a missing file,
otherwise parse every line (`none` models the exception raised on an
unparsable line). -/
def readAll (now : Str) (st : LogFile) : Option (List RunEvent) :=
  match st with
  | none => some []
  | some lines => lines.mapM (jsonToEvent now)

/-- Embedding of `EventReader.tail`: `read_all()[-n:]`. -/
def eventTail (now : Str) (n : Int) (st : LogFile) :
    Option (List RunEvent) :=
  (readAll now st).map (fun all_events => pySliceFrom (-n) all_events)

/-- Embedding of `EventReader.count`: `0` for a missing file, otherwise
the number of (non-blank) lines, counted without parsing them. -/
def eventCount (st : LogFile) : Nat :=
  match st with
  | none => 0
  | some lines => lines.length

/-- The `model.quantization` section of the nested YAML config. -/
structure QuantCfg where
  bits : Option Int

/-- The `model` section of the nested YAML config. -/
structure ModelCfg where
  name : Option Str
  quantization : Option QuantCfg
  max_length : Option Int

/-- The `training` section of the nested YAML config. -/
structure TrainingCfg where
  algorithm : Option Str
  batch_size : Option Int
  gradient_accumulation_steps : Option Int
  learning_rate : Option Rat
  num_epochs : Option Int
  seed : Option Int
  output_dir : Option Str
  bf16 : Option Bool

/-- The `adapter` section of the nested YAML config. -/
structure AdapterCfg where
  type : Option Str

/-- A parsed nested YAML configuration mapping, input of
`_flatten_config` (each section may be absent; values are assumed
well-typed, YAML being outside the embedding). -/
structure NestedConfig where
  model : Option ModelCfg
  training : Option TrainingCfg
  adapter : Option AdapterCfg

/-- The flat keyword-argument dict built by `_flatten_config`. -/
structure FlatKwargs where
  model_name : Str
  algorithm : Str
  adapter_type : Str
  quantization_bits : Int
  batch_size : Int
  gradient_accumulation_steps : Int
  learning_rate : Rat
  num_epochs : Int
  max_length : Int
  seed : Int
  output_dir : Str
  bf16 : Bool

/-- Embedding of `config._flatten_config` with its per-field defaults. -/
def flattenConfig (raw : NestedConfig) : FlatKwargs :=
  let model_cfg := raw.model.getD ⟨none, none, none⟩
  let training_cfg :=
    raw.training.getD ⟨none, none, none, none, none, none, none, none⟩
  let adapter_cfg := raw.adapter.getD ⟨none⟩
  { model_name := model_cfg.name.getD []
    algorithm := training_cfg.algorithm.getD (("dpo").toList)
    adapter_type := adapter_cfg.type.getD (("lora").toList)
    quantization_bits := ((model_cfg.quantization.getD ⟨none⟩).bits).getD 4
    batch_size := training_cfg.batch_size.getD 4
    gradient_accumulation_steps :=
      training_cfg.gradient_accumulation_steps.getD 4
    learning_rate := training_cfg.learning_rate.getD (5 / 100000 : Rat)
    num_epochs := training_cfg.num_epochs.getD 1
    max_length := model_cfg.max_length.getD 512
    seed := training_cfg.seed.getD 42
    output_dir := training_cfg.output_dir.getD (("outputs").toList)
    bf16 := training_cfg.bf16.getD true }

/-- Embedding of `contracts.training.TrainConfig` (fields only; the
pydantic bounds live in the constructor `mkTrainConfig`). -/
structure TrainConfig where
  model_name : Str
  algorithm : Str
  adapter_type : Str
  quantization_bits : Int
  batch_size : Int
  gradient_accumulation_steps : Int
  learning_rate : Rat
  num_epochs : Int
  max_length : Int
  seed : Int
  output_dir : Str
  bf16 : Bool
deriving DecidableEq, Repr

/-- Embedding of the pydantic constructor `TrainConfig(**kwargs)` with
the declared field bounds (`quantization_bits` in `[4, 8]`,
`batch_size ≥ 1`, `gradient_accumulation_steps ≥ 1`,
`learning_rate > 0`, `num_epochs ≥ 1`, `max_length ≥ 64`); `none`
models a raised `ValidationError`. -/
def mkTrainConfig (kw : FlatKwargs) : Option TrainConfig :=
  if 4 ≤ kw.quantization_bits ∧ kw.quantization_bits ≤ 8 ∧
      1 ≤ kw.batch_size ∧ 1 ≤ kw.gradient_accumulation_steps ∧
      0 < kw.learning_rate ∧ 1 ≤ kw.num_epochs ∧ 64 ≤ kw.max_length then
    some
      { model_name := kw.model_name, algorithm := kw.algorithm
        adapter_type := kw.adapter_type
        quantization_bits := kw.quantization_bits
        batch_size := kw.batch_size
        gradient_accumulation_steps := kw.gradient_accumulation_steps
        learning_rate := kw.learning_rate, num_epochs := kw.num_epochs
        max_length := kw.max_length, seed := kw.seed
        output_dir := kw.output_dir, bf16 := kw.bf16 }
  else none

/-- Embedding of `config.load_config` on an already-parsed nested
mapping (file access and YAML parsing are outside the embedding):
flatten, then validate. -/
def loadConfig (raw : NestedConfig) : Option TrainConfig :=
  mkTrainConfig (flattenConfig raw)

lemma jsonToEvent_eventToJson (now : Str) (e : RunEvent) :
    jsonToEvent now (eventToJson e) = some e := by
  obtain ⟨ts, rid, step, loss, rm, lr, gpu, tps, ex, h1, h2⟩ := e
  cases rm <;> cases gpu <;> cases tps <;>
    simp [jsonToEvent, eventToJson, lookupField, fieldAsStr, fieldAsInt,
      fieldAsNum, fieldAsOptNum, optToJson, mkRunEvent, h1, h2,
      List.filter]

lemma eventWriteAll_some (es : List RunEvent) :
    ∀ ls : List Json,
      eventWriteAll (some ls) es = some (ls ++ es.map eventToJson) := by
  induction es with
  | nil => intro ls; simp [eventWriteAll]
  | cons e es ih =>
    intro ls
    have step : eventWrite (some ls) e = some (ls ++ [eventToJson e]) := by
      simp [eventWrite]
    simp only [eventWriteAll, List.foldl_cons] at *
    rw [step, ih]
    simp

lemma mapM_eventToJson (now : Str) (es : List RunEvent) :
    (es.map eventToJson).mapM (jsonToEvent now) = some es := by
  induction es with
  | nil => simp only [List.map_nil, List.mapM_nil]; rfl
  | cons e es ih =>
    simp only [List.map_cons, List.mapM_cons, jsonToEvent_eventToJson, ih]
    rfl

lemma readAll_writeAll_fresh (now : Str) (es : List RunEvent) :
    readAll now (eventWriteAll none es) = some es := by
  cases es with
  | nil => simp [eventWriteAll, readAll]
  | cons e es =>
    have h1 : eventWrite none e = some [eventToJson e] := by
      simp [eventWrite]
    simp only [eventWriteAll, List.foldl_cons]
    rw [h1]
    have h2 := eventWriteAll_some es [eventToJson e]
    simp only [eventWriteAll] at h2
    rw [h2]
    simp only [readAll]
    have : ([eventToJson e] ++ es.map eventToJson)
        = (e :: es).map eventToJson := by simp
    rw [this, mapM_eventToJson]

/-- C3.  Writer/reader round-trip: writing any finite sequence of
events in order into a fresh log and reading it back with
`EventReader.read_all` returns exactly that sequence in order, and
`EventReader.count` returns its length. -/
theorem events_write_read_roundtrip (now : Str) (es : List RunEvent) :
    readAll now (eventWriteAll none es) = some es ∧
      eventCount (eventWriteAll none es) = es.length := by
  refine ⟨readAll_writeAll_fresh now es, ?_⟩
  cases es with
  | nil => rfl
  | cons e es =>
    have h1 : eventWrite none e = some [eventToJson e] := by
      simp [eventWrite]
    simp only [eventWriteAll, List.foldl_cons]
    rw [h1]
    have h2 := eventWriteAll_some es [eventToJson e]
    simp only [eventWriteAll] at h2
    rw [h2]
    simp [eventCount]

/-- C4.  The log is append-only: a `write` extends the sequence
returned by `read_all` by exactly the one new event at the end, leaving
every previously stored event unchanged. -/
theorem events_append_only (now : Str) (st : LogFile) (e : RunEvent)
    (evs : List RunEvent) (h : readAll now st = some evs) :
    readAll now (eventWrite st e) = some (evs ++ [e]) := by
  cases st with
  | none =>
    simp only [readAll] at h
    obtain rfl : evs = [] := by simpa using h.symm
    simp only [eventWrite, Option.getD_none, List.nil_append, readAll]
    have := mapM_eventToJson now [e]
    simpa using this
  | some lines =>
    simp only [readAll] at h ⊢
    simp only [eventWrite, Option.getD_some]
    rw [List.mapM_append, h]
    have h1 := mapM_eventToJson now [e]
    simp only [List.map_cons, List.map_nil] at h1
    rw [h1]
    rfl

/-- A concrete event used by the closed witness statements. -/
def sampleEvent : RunEvent :=
  { timestamp := [], run_id := ("r1").toList, step := 1, loss := 1
    reward_margin := none, learning_rate := 0, gpu_memory_mb := none
    tokens_per_second := none, extras := []
    step_nonneg := by decide, lr_nonneg := by decide }

/-- Witness for C4 at a concrete log state and event. -/
theorem events_append_only_witness :
    readAll [] none = some [] ∧
      readAll [] (eventWrite none sampleEvent) = some ([] ++ [sampleEvent]) :=
  ⟨rfl, events_append_only [] none sampleEvent [] rfl⟩

/-- C5.  For `n ≥ 1`, `EventReader.tail(n)` returns the final
`min(n, total)`-length suffix of `read_all`, in order; on a missing log
file it returns the empty list. -/
theorem events_tail_suffix (now : Str) (n : Int) (st : LogFile)
    (evs : List RunEvent) :
    (readAll now st = some evs → 1 ≤ n →
      eventTail now n st =
        some (evs.drop (evs.length - min n.toNat evs.length))) ∧
      eventTail now n none = some [] := by
  constructor
  · intro h hn
    have h2 : eventTail now n st = some (pySliceFrom (-n) evs) := by
      simp only [eventTail, h]; rfl
    rw [h2]
    congr 1
    simp only [pySliceFrom]
    rw [if_pos (by omega : (-n : Int) < 0)]
    congr 1
    omega
  · have h2 : eventTail now n none = some (pySliceFrom (-n) ([] : List RunEvent)) := by
      simp only [eventTail, readAll]; rfl
    rw [h2]
    congr 1
    unfold pySliceFrom
    split <;> simp

/-- Witness for C5 at a concrete one-event log and `n = 2`. -/
theorem events_tail_suffix_witness :
    readAll [] (some [eventToJson sampleEvent]) = some [sampleEvent] ∧
      (1 : Int) ≤ 2 ∧
      eventTail [] 2 (some [eventToJson sampleEvent]) =
        some ([sampleEvent].drop
          ([sampleEvent].length - min (2 : Int).toNat [sampleEvent].length)) := by
  have h : readAll [] (some [eventToJson sampleEvent]) = some [sampleEvent] := by
    have h1 := mapM_eventToJson [] [sampleEvent]
    simpa [readAll] using h1
  exact ⟨h, by norm_num,
    (events_tail_suffix [] 2 (some [eventToJson sampleEvent]) [sampleEvent]).1
      h (by norm_num)⟩

/-- C10.  `EventReader.tail(0)` on an existing, readable log returns the
entire event list, because the implementation slices with
`all_events[-0:]` and `-0 == 0`. -/
theorem events_tail_zero (now : Str) (st : LogFile)
    (evs : List RunEvent) (h : readAll now st = some evs) :
    eventTail now 0 st = some evs := by
  have h2 : eventTail now 0 st = some (pySliceFrom 0 evs) := by
    simp only [eventTail, h]; rfl
  rw [h2]
  congr 1

/-- Witness for C10 at a concrete one-event log. -/
theorem events_tail_zero_witness :
    readAll [] (some [eventToJson sampleEvent]) = some [sampleEvent] ∧
      eventTail [] 0 (some [eventToJson sampleEvent]) = some [sampleEvent] := by
  have h : readAll [] (some [eventToJson sampleEvent]) = some [sampleEvent] := by
    have h1 := mapM_eventToJson [] [sampleEvent]
    simpa [readAll] using h1
  exact ⟨h, events_tail_zero [] (some [eventToJson sampleEvent]) [sampleEvent] h⟩

/-- A concrete event with step 5 for the C6 counterexample. -/
def sampleEventStep5 : RunEvent :=
  { timestamp := [], run_id := ("r1").toList, step := 5, loss := 1
    reward_margin := none, learning_rate := 0, gpu_memory_mb := none
    tokens_per_second := none, extras := []
    step_nonneg := by decide, lr_nonneg := by decide }

/-- A concrete event with step 3 for the C6 counterexample. -/
def sampleEventStep3 : RunEvent :=
  { timestamp := [], run_id := ("r1").toList, step := 3, loss := 1
    reward_margin := none, learning_rate := 0, gpu_memory_mb := none
    tokens_per_second := none, extras := []
    step_nonneg := by decide, lr_nonneg := by decide }

/-- Counterexample to C6: the writer accepts events whose steps
decrease, so a log can hold steps `[5, 3]`, and the step values of
successive events in that log are not monotonically non-decreasing. -/
theorem events_steps_not_monotonic :
    readAll [] (eventWriteAll none [sampleEventStep5, sampleEventStep3])
        = some [sampleEventStep5, sampleEventStep3] ∧
      ¬ List.Chain' (fun a b => a ≤ b)
        ([sampleEventStep5, sampleEventStep3].map RunEvent.step) := by
  refine ⟨readAll_writeAll_fresh [] _, ?_⟩
  simp [sampleEventStep5, sampleEventStep3]

/-- C6, amended.  Constructing a `RunEvent` with `step < 0` fails
validation, so every event in a log has `step ≥ 0`; but the writer does
not enforce monotonicity: the steps of `read_all` of a log written from
scratch are non-decreasing exactly when the written sequence's steps
are. -/
theorem events_step_validation (ts rid : Str) (step : Int) (loss : Rat)
    (rm : Option Rat) (lr : Rat) (gpu tps : Option Rat)
    (ex : List (Str × Json)) (hstep : step < 0) :
    mkRunEvent ts rid step loss rm lr gpu tps ex = none ∧
      (∀ (now : Str) (st : LogFile) (evs : List RunEvent),
        readAll now st = some evs → ∀ e ∈ evs, 0 ≤ e.step) ∧
      (∀ (now : Str) (es evs : List RunEvent),
        readAll now (eventWriteAll none es) = some evs →
          (List.Chain' (fun a b => a ≤ b) (evs.map RunEvent.step) ↔
            List.Chain' (fun a b => a ≤ b) (es.map RunEvent.step))) := by
  refine ⟨?_, ?_, ?_⟩
  · simp [mkRunEvent, not_le.mpr hstep]
  · intro now st evs _ e _
    exact e.step_nonneg
  · intro now es evs h
    rw [readAll_writeAll_fresh] at h
    obtain rfl : evs = es := by simpa using h.symm
    exact Iff.rfl

/-- Witness for C6 at concrete inputs. -/
theorem events_step_validation_witness :
    mkRunEvent [] [] (-1) 0 none 0 none none [] = none := by
  have h := events_step_validation [] [] (-1) 0 none 0 none none []
    (by norm_num)
  exact h.1

lemma anthropicFormat_ok (raw : RawHH) (rid : Str)
    (rec : PreferenceRecord) (h : anthropicFormat raw rid = Except.ok rec) :
    rec = { id := rid
            prompt := extractSharedPrompt (raw.chosen.getD [])
              (raw.rejected.getD [])
            chosen := extractLastAssistant (raw.chosen.getD [])
            rejected := extractLastAssistant (raw.rejected.getD [])
            source := ("anthropic_hh").toList
            metadata := [] } ∧
      extractLastAssistant (raw.chosen.getD []) ≠ [] ∧
      extractLastAssistant (raw.rejected.getD []) ≠ [] := by
  simp only [anthropicFormat] at h
  split at h
  · exact absurd h (by simp)
  · rename_i hcond
    push_neg at hcond
    simp only [Except.ok.injEq] at h
    exact ⟨h.symm, hcond.1, hcond.2⟩

/-- Counterexample to C1: `StandardFormatter.format` copies the
`chosen` field verbatim, so on a raw record whose `chosen` is the empty
string it returns a `PreferenceRecord` with an empty `chosen`. -/
theorem standardFormat_empty_chosen :
    (standardFormat
        { prompt := ("p").toList, chosen := [], rejected := ("r").toList
          source := none }
        (("0").toList)).chosen = [] := rfl

/-- C1, amended.  `AnthropicHHFormatter.format` raises `ValueError`
when either extracted response is empty (so any record it returns has
non-empty `chosen` and `rejected`), and `DataPipeline.validate`
excludes any row whose extracted prompt, chosen, or rejected is empty;
`StandardFormatter.format`, however, copies `chosen` and `rejected`
verbatim and can return a record in which they are empty. -/
theorem formatters_nonempty_responses :
    (∀ (raw : RawHH) (rid : Str) (rec : PreferenceRecord),
      anthropicFormat raw rid = Except.ok rec →
        rec.chosen ≠ [] ∧ rec.rejected ≠ []) ∧
      (∀ (rows : List Row) (recs : List PreferenceRecord),
        validate rows = Except.ok recs →
          ∀ rec ∈ recs,
            rec.prompt ≠ [] ∧ rec.chosen ≠ [] ∧ rec.rejected ≠ []) ∧
      (∀ (raw : RawStd) (rid : Str),
        (standardFormat raw rid).chosen = raw.chosen ∧
          (standardFormat raw rid).rejected = raw.rejected) := by
  refine ⟨?_, ?_, fun raw rid => ⟨rfl, rfl⟩⟩
  · intro raw rid rec h
    obtain ⟨hrec, hc, hr⟩ := anthropicFormat_ok raw rid rec h
    subst hrec
    exact ⟨hc, hr⟩
  · intro rows recs h rec hmem
    simp only [validate] at h
    split at h
    · exact absurd h (by simp)
    · simp only [Except.ok.injEq] at h
      subst h
      rw [List.mem_filterMap] at hmem
      obtain ⟨ir, _, hrow⟩ := hmem
      simp only [validateRow] at hrow
      split at hrow
      · exact absurd hrow (by simp)
      · rename_i hcond
        push_neg at hcond
        simp only [Option.some.injEq] at hrow
        subst hrow
        exact ⟨hcond.1, hcond.2.1, hcond.2.2⟩

/-- Witness for C1 at concrete inputs: a well-formed Anthropic HH raw
record and a one-row dataset. -/
theorem formatters_nonempty_responses_witness :
    anthropicFormat
        { chosen := some (("\n\nHuman: q\n\nAssistant: a").toList)
          rejected := some (("\n\nHuman: q\n\nAssistant: b").toList) }
        (("0").toList) =
      Except.ok
        { id := ("0").toList, prompt := ("q").toList
          chosen := ("a").toList, rejected := ("b").toList
          source := ("anthropic_hh").toList, metadata := [] } ∧
      (("a").toList : Str) ≠ [] ∧ (("b").toList : Str) ≠ [] := by
  have h :
      anthropicFormat
          { chosen := some (("\n\nHuman: q\n\nAssistant: a").toList)
            rejected := some (("\n\nHuman: q\n\nAssistant: b").toList) }
          (("0").toList) =
        Except.ok
          { id := ("0").toList, prompt := ("q").toList
            chosen := ("a").toList, rejected := ("b").toList
            source := ("anthropic_hh").toList, metadata := [] } := by rfl
  refine ⟨h, ?_⟩
  have h2 := (formatters_nonempty_responses).1 _ _ _ h
  exact h2

/-- Concrete Anthropic HH raw record (rejected branch `b`). -/
def hhRawA : RawHH :=
  { chosen := some (("\n\nHuman: q\n\nAssistant: a").toList)
    rejected := some (("\n\nHuman: q\n\nAssistant: b").toList) }

/-- Concrete Anthropic HH raw record with the same chosen transcript as
`hhRawA` but a different rejected transcript. -/
def hhRawB : RawHH :=
  { chosen := some (("\n\nHuman: q\n\nAssistant: a").toList)
    rejected := some (("\n\nHuman: other\n\nAssistant: c").toList) }

/-- C9.  The extracted prompt does not depend on the rejected
transcript: `_extract_shared_prompt(chosen, r1) =
_extract_shared_prompt(chosen, r2)` for all `r1, r2`, and hence the
prompt of any record returned by `AnthropicHHFormatter.format` is a
function of the chosen transcript alone. -/
theorem prompt_independent_of_rejected :
    (∀ c r1 r2 : Str, extractSharedPrompt c r1 = extractSharedPrompt c r2) ∧
      (∀ (raw1 raw2 : RawHH) (rid1 rid2 : Str)
          (rec1 rec2 : PreferenceRecord),
        raw1.chosen = raw2.chosen →
          anthropicFormat raw1 rid1 = Except.ok rec1 →
          anthropicFormat raw2 rid2 = Except.ok rec2 →
          rec1.prompt = rec2.prompt) := by
  have hind : ∀ c r1 r2 : Str,
      extractSharedPrompt c r1 = extractSharedPrompt c r2 :=
    fun c r1 r2 => rfl
  refine ⟨hind, ?_⟩
  intro raw1 raw2 rid1 rid2 rec1 rec2 hch h1 h2
  obtain ⟨hrec1, -, -⟩ := anthropicFormat_ok raw1 rid1 rec1 h1
  obtain ⟨hrec2, -, -⟩ := anthropicFormat_ok raw2 rid2 rec2 h2
  subst hrec1
  subst hrec2
  simp only
  rw [hch]
  exact hind _ _ _

/-- Witness for C9: two raw records sharing the chosen transcript but
with different rejected transcripts yield records with the same
prompt. -/
theorem prompt_independent_of_rejected_witness :
    hhRawA.chosen = hhRawB.chosen ∧
      anthropicFormat hhRawA (("0").toList) =
        Except.ok
          { id := ("0").toList, prompt := ("q").toList
            chosen := ("a").toList, rejected := ("b").toList
            source := ("anthropic_hh").toList, metadata := [] } ∧
      anthropicFormat hhRawB (("1").toList) =
        Except.ok
          { id := ("1").toList, prompt := ("q").toList
            chosen := ("a").toList, rejected := ("c").toList
            source := ("anthropic_hh").toList, metadata := [] } ∧
      (({ id := ("0").toList, prompt := ("q").toList
          chosen := ("a").toList, rejected := ("b").toList
          source := ("anthropic_hh").toList,
          metadata := [] } : PreferenceRecord)).prompt =
        (({ id := ("1").toList, prompt := ("q").toList
            chosen := ("a").toList, rejected := ("c").toList
            source := ("anthropic_hh").toList,
            metadata := [] } : PreferenceRecord)).prompt := by
  have h1 : anthropicFormat hhRawA (("0").toList) =
      Except.ok
        { id := ("0").toList, prompt := ("q").toList
          chosen := ("a").toList, rejected := ("b").toList
          source := ("anthropic_hh").toList, metadata := [] } := by rfl
  have h2 : anthropicFormat hhRawB (("1").toList) =
      Except.ok
        { id := ("1").toList, prompt := ("q").toList
          chosen := ("a").toList, rejected := ("c").toList
          source := ("anthropic_hh").toList, metadata := [] } := by rfl
  exact ⟨rfl, h1, h2,
    prompt_independent_of_rejected.2 hhRawA hhRawB _ _ _ _ rfl h1 h2⟩

/-- Concrete record for the C2 counterexample. -/
def recA : PreferenceRecord :=
  { id := ("0").toList, prompt := ("a").toList, chosen := ("b").toList
    rejected := ("c").toList, source := ("s").toList, metadata := [] }

/-- Concrete record for the C2 counterexample. -/
def recB : PreferenceRecord :=
  { id := ("1").toList, prompt := ("d").toList, chosen := ("e").toList
    rejected := ("f").toList, source := ("s").toList, metadata := [] }

/-- Counterexample to C2: `sort_keys=True` sorts the keys inside each
serialized record, not the record list, so permuting the records
changes the checksum. -/
theorem manifest_checksum_order_dependent :
    (createManifest (("ds").toList) [recA, recB] (("1.0").toList)).checksum ≠
      (createManifest (("ds").toList) [recB, recA] (("1.0").toList)).checksum := by
  set_option maxRecDepth 100000 in decide

/-- C2, amended.  `DataPipeline.create_manifest` is deterministic — the
checksum is a pure function of the record list alone (independent even
of `name` and `version`) — and the manifest's `num_records` equals the
length of the records list; the checksum is, however, sensitive to the
order of the records, because `sort_keys=True` sorts the keys of each
serialized record dict rather than the record list. -/
theorem manifest_deterministic (name1 name2 version1 version2 : Str)
    (records : List PreferenceRecord) :
    (createManifest name1 records version1).num_records = records.length ∧
      (createManifest name1 records version1).checksum =
        (createManifest name2 records version2).checksum ∧
      (createManifest name1 records version1).checksum =
        recordsChecksum records := by
  exact ⟨rfl, rfl, rfl⟩

/-- C8.  `load_config` flattens the nested mapping into the
`TrainConfig` keyword arguments (`model_name` from `model.name`
defaulting to the empty string, `algorithm` from `training.algorithm`
defaulting to `"dpo"`, `quantization_bits` from
`model.quantization.bits` defaulting to 4, batch size, learning rate
and epochs from the `training` section), and construction fails
validation exactly when a pydantic bound is violated — in particular
whenever `quantization_bits` is outside `[4, 8]`, `batch_size < 1`,
`learning_rate ≤ 0`, `num_epochs < 1`, or `max_length < 64`. -/
theorem config_flatten_and_validate :
    (∀ raw : NestedConfig,
      (flattenConfig raw).model_name =
          ((raw.model.getD ⟨none, none, none⟩).name.getD []) ∧
        (flattenConfig raw).algorithm =
          ((raw.training.getD
              ⟨none, none, none, none, none, none, none, none⟩).algorithm.getD
            (("dpo").toList)) ∧
        (flattenConfig raw).quantization_bits =
          (((raw.model.getD ⟨none, none, none⟩).quantization.getD
              ⟨none⟩).bits.getD 4) ∧
        (flattenConfig raw).batch_size =
          ((raw.training.getD
              ⟨none, none, none, none, none, none, none, none⟩).batch_size.getD
            4) ∧
        (flattenConfig raw).learning_rate =
          ((raw.training.getD
              ⟨none, none, none, none, none, none, none,
                none⟩).learning_rate.getD (5 / 100000 : Rat)) ∧
        loadConfig raw = mkTrainConfig (flattenConfig raw)) ∧
      (∀ kw : FlatKwargs,
        mkTrainConfig kw = none ↔
          (kw.quantization_bits < 4 ∨ 8 < kw.quantization_bits ∨
            kw.batch_size < 1 ∨ kw.gradient_accumulation_steps < 1 ∨
            kw.learning_rate ≤ 0 ∨ kw.num_epochs < 1 ∨
            kw.max_length < 64)) := by
  refine ⟨fun raw => ⟨rfl, rfl, rfl, rfl, rfl, rfl⟩, ?_⟩
  intro kw
  simp only [mkTrainConfig]
  split_ifs with hc
  · obtain ⟨h1, h2, h3, h4, h5, h6, h7⟩ := hc
    simp only [reduceCtorEq, false_iff]
    push_neg
    refine ⟨by omega, by omega, by omega, by omega, by linarith, by omega,
      by omega⟩
  · simp only [true_iff]
    by_contra hd
    push_neg at hd
    obtain ⟨h1, h2, h3, h4, h5, h6, h7⟩ := hd
    exact hc ⟨by omega, by omega, by omega, by omega, by linarith, by omega,
      by omega⟩

/-- Witness for C8: the all-defaults nested config, and a keyword dict
with `quantization_bits = 3`, which fails validation. -/
theorem config_flatten_and_validate_witness :
    (flattenConfig ⟨none, none, none⟩).model_name = [] ∧
      (flattenConfig ⟨none, none, none⟩).quantization_bits = 4 ∧
      mkTrainConfig
          { model_name := [], algorithm := ("dpo").toList
            adapter_type := ("lora").toList, quantization_bits := 3
            batch_size := 4, gradient_accumulation_steps := 4
            learning_rate := 5 / 100000, num_epochs := 1, max_length := 512
            seed := 42, output_dir := ("outputs").toList, bf16 := true } =
        none := by
  refine ⟨rfl, rfl, ?_⟩
  exact (config_flatten_and_validate.2 _).mpr (by norm_num)

lemma splitFirst_decomp {sep : Str} :
    ∀ {s p r : Str}, splitFirst sep s = some (p, r) → s = p ++ sep ++ r := by
  intro s
  induction s with
  | nil => intro p r h; simp [splitFirst] at h
  | cons c cs ih =>
    intro p r h
    rw [splitFirst] at h
    split at h
    · rename_i hpre
      rw [List.isPrefixOf_iff_prefix] at hpre
      obtain ⟨t, ht⟩ := hpre
      simp only [Option.some.injEq, Prod.mk.injEq] at h
      obtain ⟨rfl, hr⟩ := h
      rw [← ht] at hr ⊢
      rw [List.drop_left] at hr
      rw [← hr]
      simp
    · revert h
      match hcs : splitFirst sep cs with
      | none => intro h; simp at h
      | some (p0, r0) =>
        intro h
        simp only [Option.some.injEq, Prod.mk.injEq] at h
        obtain ⟨rfl, rfl⟩ := h
        have := ih hcs
        simp [this]

lemma splitFirst_none_no_occurrence {sep : Str} (hsep : sep ≠ []) :
    ∀ {s : Str}, splitFirst sep s = none →
      ∀ a b : Str, s ≠ a ++ sep ++ b := by
  intro s
  induction s with
  | nil =>
    intro _ a b hab
    apply hsep
    have h2 := hab.symm
    simp only [List.append_eq_nil] at h2
    exact h2.1.2
  | cons c cs ih =>
    intro h a b hab
    rw [splitFirst] at h
    split at h
    · exact absurd h (by simp)
    · rename_i hpre
      match a with
      | [] =>
        apply hpre
        rw [List.isPrefixOf_iff_prefix]
        exact ⟨b, by simpa using hab.symm⟩
      | d :: a0 =>
        revert h
        match hcs : splitFirst sep cs with
        | some _ => intro h; simp at h
        | none =>
          intro _
          have hcons : c :: cs = d :: (a0 ++ sep ++ b) := by simpa using hab
          have : cs = a0 ++ sep ++ b := by
            injection hcons with _ h2
          exact ih hcs a0 b this

lemma splitFirst_minimal {sep : Str} :
    ∀ {s p r : Str}, splitFirst sep s = some (p, r) →
      ∀ a b : Str, s = a ++ sep ++ b → p.length ≤ a.length := by
  intro s
  induction s with
  | nil => intro p r h; simp [splitFirst] at h
  | cons c cs ih =>
    intro p r h a b hab
    rw [splitFirst] at h
    split at h
    · simp only [Option.some.injEq, Prod.mk.injEq] at h
      obtain ⟨rfl, -⟩ := h
      simp
    · rename_i hpre
      match a with
      | [] =>
        exfalso
        apply hpre
        rw [List.isPrefixOf_iff_prefix]
        exact ⟨b, by simpa using hab.symm⟩
      | d :: a0 =>
        revert h
        match hcs : splitFirst sep cs with
        | none => intro h; simp at h
        | some (p0, r0) =>
          intro h
          simp only [Option.some.injEq, Prod.mk.injEq] at h
          obtain ⟨rfl, rfl⟩ := h
          have hcons : c :: cs = d :: (a0 ++ sep ++ b) := by simpa using hab
          have h2 : cs = a0 ++ sep ++ b := by injection hcons
          have := ih hcs a0 b h2
          simpa using Nat.succ_le_succ this

lemma splitFirst_shorter {sep : Str} (hsep : sep ≠ []) {s p r : Str}
    (h : splitFirst sep s = some (p, r)) : r.length < s.length := by
  have hd := splitFirst_decomp h
  have : s.length = p.length + sep.length + r.length := by
    simp [hd]
    omega
  have hsl : 0 < sep.length := List.length_pos.mpr hsep
  omega

lemma pySplitGo_fuel {sep : Str} (hsep : sep ≠ []) :
    ∀ n : Nat, ∀ s : Str, s.length < n →
      pySplitGo sep n s = pySplitGo sep (s.length + 1) s := by
  intro n
  induction n using Nat.strong_induction_on with
  | _ n ih =>
    intro s hs
    match n with
    | 0 => omega
    | m + 1 =>
      rw [pySplitGo]
      conv_rhs => rw [pySplitGo]
      match hsf : splitFirst sep s with
      | none => rfl
      | some (p, r) =>
        have hr : r.length < s.length := splitFirst_shorter hsep hsf
        have h1 : pySplitGo sep m r = pySplitGo sep (r.length + 1) r :=
          ih m (by omega) r (by omega)
        have h2 : pySplitGo sep s.length r = pySplitGo sep (r.length + 1) r :=
          ih s.length (by omega) r (by omega)
        show p :: pySplitGo sep m r = p :: pySplitGo sep s.length r
        rw [h1, h2]

lemma pySplit_of_none {sep s : Str} (h : splitFirst sep s = none) :
    pySplit sep s = [s] := by
  rw [pySplit, pySplitGo, h]

lemma pySplit_cons {sep : Str} (hsep : sep ≠ []) {s p r : Str}
    (h : splitFirst sep s = some (p, r)) :
    pySplit sep s = p :: pySplit sep r := by
  have hstep : pySplit sep s = p :: pySplitGo sep s.length r := by
    rw [pySplit, pySplitGo, h]
  rw [hstep, pySplit]
  congr 1
  exact pySplitGo_fuel hsep s.length r (splitFirst_shorter hsep h)

/-- A separator is overlap-free when no proper non-empty suffix of it is
also a prefix of it; occurrences of such a separator cannot overlap, so
the last element of `str.split(sep)` is exactly the text after the last
occurrence of `sep`. -/
def NoOverlap (sep : Str) : Prop :=
  ∀ k < sep.length, 0 < k → ¬ (sep.drop k <+: sep)

lemma delim_noOverlap : NoOverlap assistantDelim := by
  unfold NoOverlap
  decide

lemma pySplit_last {sep : Str} (hsep : sep ≠ []) (hno : NoOverlap sep) :
    ∀ a b : Str, ¬ (sep <:+: b) →
      2 ≤ (pySplit sep (a ++ sep ++ b)).length ∧
        (pySplit sep (a ++ sep ++ b)).getLast? = some b := by
  suffices H : ∀ n : Nat, ∀ a b : Str, a.length ≤ n → ¬ (sep <:+: b) →
      2 ≤ (pySplit sep (a ++ sep ++ b)).length ∧
        (pySplit sep (a ++ sep ++ b)).getLast? = some b by
    intro a b hb
    exact H a.length a b le_rfl hb
  intro n
  induction n using Nat.strong_induction_on with
  | _ n ih =>
    intro a b ha hb
    match hsf : splitFirst sep (a ++ sep ++ b) with
    | none =>
      exact absurd rfl (splitFirst_none_no_occurrence hsep hsf a b)
    | some (p, r) =>
      have hd := splitFirst_decomp hsf
      have hmin := splitFirst_minimal hsf a b rfl
      have hp_pre : p ++ sep <+: a ++ sep ++ b := by
        rw [hd]
        simp [List.append_assoc]
      have ha_pre : a <+: a ++ sep ++ b := by
        simp [List.append_assoc]
      by_cases hcase : p.length + sep.length ≤ a.length
      · -- the first occurrence ends inside `a`: recurse on the rest of `a`
        have hps_a : p ++ sep <+: a :=
          List.prefix_of_prefix_length_le hp_pre ha_pre (by simp; omega)
        obtain ⟨t, ht⟩ := hps_a
        have hsl : 0 < sep.length := List.length_pos.mpr hsep
        have hta : a = p ++ sep ++ t := by rw [← ht]
        have htlen : t.length < a.length := by
          have : a.length = p.length + sep.length + t.length := by
            rw [hta]; simp; omega
          omega
        have hr : r = t ++ sep ++ b := by
          have h2 : p ++ sep ++ r = p ++ sep ++ (t ++ sep ++ b) := by
            rw [← hd, hta]; simp
          have := List.append_cancel_left h2
          simpa using h2
        have hrec := ih t.length (by omega) t b le_rfl hb
        rw [← hr] at hrec
        have hcons := pySplit_cons hsep hsf
        rw [hcons]
        constructor
        · simp; omega
        · have hne : pySplit sep r ≠ [] := by
            intro hnil
            rw [hnil] at hrec
            simp at hrec
          rw [List.getLast?_cons, hrec.2.symm]
          cases hps : pySplit sep r with
          | nil => exact absurd hps hne
          | cons x l => simp [List.getLast?_cons]
      · -- the first occurrence starts where the final `sep` of the
        -- decomposition does (any strictly earlier start would overlap)
        have hp_s : p <+: a ++ sep ++ b :=
          (List.prefix_append p sep).trans hp_pre
        by_cases heq : p.length = a.length
        · have hpa : p = a :=
            (List.prefix_of_prefix_length_le hp_s ha_pre
              (le_of_eq heq)).eq_of_length heq
          subst hpa
          have hrb : b = r := List.append_cancel_left hd
          have hnone : splitFirst sep b = none := by
            match hsfb : splitFirst sep b with
            | none => rfl
            | some (q, w) =>
              exfalso
              exact hb ⟨q, w, (splitFirst_decomp hsfb).symm⟩
          rw [pySplit_cons hsep hsf, ← hrb, pySplit_of_none hnone]
          exact ⟨by simp, by simp⟩
        · exfalso
          have hlt : p.length < a.length := lt_of_le_of_ne hmin heq
          have hpa : p <+: a :=
            List.prefix_of_prefix_length_le hp_s ha_pre (le_of_lt hlt)
          obtain ⟨u, hu⟩ := hpa
          have hulen : p.length + u.length = a.length := by
            rw [← hu]; simp
          have hsl : 0 < sep.length := List.length_pos.mpr hsep
          have hstar : sep ++ r = u ++ (sep ++ b) := by
            rw [← hu] at hd
            simpa [List.append_assoc] using hd.symm
          have hu_sep : u <+: sep := by
            have h5 : u <+: sep ++ r := by
              have h6 : u <+: u ++ (sep ++ b) := List.prefix_append _ _
              rw [← hstar] at h6
              exact h6
            exact List.prefix_of_prefix_length_le h5
              (List.prefix_append sep r) (by omega)
          obtain ⟨v, hv⟩ := hu_sep
          have hvlen : u.length + v.length = sep.length := by
            rw [← hv]; simp
          have hstar2 : v ++ r = sep ++ b := by
            have h4 : u ++ (v ++ r) = u ++ (sep ++ b) := by
              calc u ++ (v ++ r) = (u ++ v) ++ r := by
                    rw [List.append_assoc]
                _ = sep ++ r := by rw [hv]
                _ = u ++ (sep ++ b) := hstar
            exact List.append_cancel_left h4
          have hv_sep : v <+: sep := by
            have h7 : v <+: sep ++ b := by
              have h8 : v <+: v ++ r := List.prefix_append _ _
              rw [hstar2] at h8
              exact h8
            exact List.prefix_of_prefix_length_le h7
              (List.prefix_append sep b) (by omega)
          have hvdrop : sep.drop u.length = v := by
            rw [← hv, List.drop_left]
          exact hno u.length (by omega) (by omega) (hvdrop ▸ hv_sep)

/-- C7.  Assistant-response extraction splits on the fixed delimiter
`"\n\nAssistant: "` and takes the last segment: writing a conversation
that contains the delimiter as `a ++ delim ++ b` with no occurrence of
the delimiter in `b` (so that `b` is exactly the text after the LAST
occurrence), `_extract_last_assistant` returns `b` stripped; on a
string not containing the delimiter it returns the whole string
stripped; and the pipeline's `_extract_response` computes the same
function. -/
theorem extract_last_assistant_spec :
    (∀ s : Str, ¬ (assistantDelim <:+: s) →
      extractLastAssistant s = pyStrip s) ∧
      (∀ a b : Str, ¬ (assistantDelim <:+: b) →
        extractLastAssistant (a ++ assistantDelim ++ b) = pyStrip b) ∧
      (∀ s : Str, extractResponse s = extractLastAssistant s) := by
  have hsep : assistantDelim ≠ [] := by decide
  refine ⟨?_, ?_, fun s => rfl⟩
  · intro s h
    have hnone : splitFirst assistantDelim s = none := by
      match hsf : splitFirst assistantDelim s with
      | none => rfl
      | some (p, r) =>
        exact absurd ⟨p, r, (splitFirst_decomp hsf).symm⟩ h
    simp [extractLastAssistant, pySplit_of_none hnone]
  · intro a b hb
    obtain ⟨hlen, hlast⟩ := pySplit_last hsep delim_noOverlap a b hb
    simp only [extractLastAssistant]
    rw [if_neg (by omega)]
    rw [pyLast, List.getLastD_eq_getLast?, hlast]
    rfl

/-- Witness for C7 at concrete conversations, one without the
delimiter and one of the form `a ++ delim ++ b`. -/
theorem extract_last_assistant_spec_witness :
    (¬ (assistantDelim <:+: (("Human: hi").toList)) ∧
      extractLastAssistant (("Human: hi").toList) =
        pyStrip (("Human: hi").toList)) ∧
      (¬ (assistantDelim <:+: ((" final answer ").toList)) ∧
        extractLastAssistant
            ((("\n\nHuman: q").toList) ++ assistantDelim ++
              ((" final answer ").toList)) =
          pyStrip ((" final answer ").toList)) := by
  constructor
  · exact ⟨by decide, extract_last_assistant_spec.1 _ (by decide)⟩
  · exact ⟨by decide, extract_last_assistant_spec.2.1 _ _ (by decide)⟩
